import Mathlib

/-!
Verification of the Duxbury (dbtw.exe) NVDA app module
(`appModules/dbtw.py`): a shallow embedding of its candidate
collector, pattern matcher, field parser and reporting scripts,
together with theorems checking the natural-language specification.

External collaborators (the accessibility tree, the direct
status-bar accessor, the built-in status delegate) are modelled as
explicit parameters; machine text is modelled as Lean `String`.
-/

namespace Dbtw

/-! ## Characters, whitespace and normalization

Python semantics mirrored here: `\s` (whitespace class), `\w`
(word character, used by the `\b` boundary), `str.isdigit` on
ASCII digit runs, `re.sub(r"\s+", " ", t).strip()` normalization.
-/

/-- Python `\s` on the texts this module sees (ASCII whitespace). -/
def pySpace (c : Char) : Bool :=
  (" \t\n\r\x0B\x0C".data).contains c

/-- Python `\w` (ASCII): letters, digits, underscore. -/
def isWordChar (c : Char) : Bool :=
  c.isAlphanum || c = Char.ofNat 95

def isWordOpt : Option Char → Bool
  | none => false
  | some c => isWordChar c

/-- One step of `re.sub(r"\s+", " ", t)`: collapse each maximal
whitespace run to a single space.  The boolean records whether the
previous character was part of a whitespace run. -/
def collapseWS : Bool → List Char → List Char
  | _, [] => []
  | inRun, c :: cs =>
    if pySpace c then
      if inRun then collapseWS true cs
      else Char.ofNat 32 :: collapseWS true cs
    else c :: collapseWS false cs

/-- Python `str.strip()` on a list of characters. -/
def stripList (l : List Char) : List Char :=
  ((l.dropWhile pySpace).reverse.dropWhile pySpace).reverse

/-- Python `t.strip()`. -/
def stripStr (t : String) : String :=
  String.mk (stripList t.data)

/-- Python `re.sub(r"\s+", " ", t).strip()` — the whitespace
normalization used throughout the module. -/
def normalizeWS (t : String) : String :=
  String.mk (stripList (collapseWS false t.data))

/-! ## A small regular-expression engine

The module's patterns use only: case-insensitive literals,
the classes `\d`, `\s`, `[:#.=]`, the zero-width `\b` boundary,
alternation, greedy `*` `+` `?`, and numbered capture groups.
The engine below returns *all* matches at a position, in the
backtracking order of Python's `re` (alternation prefers the left
branch, quantifiers are greedy), so the head of the list is the
match `re.search` produces at that position. -/

inductive RE where
  | eps : RE
  | lit : Char → RE
  | cls : String → RE
  | digit : RE
  | wsp : RE
  | wordB : RE
  | cat : RE → RE → RE
  | alt : RE → RE → RE
  | opt : RE → RE
  | star : RE → RE
  | group : Nat → RE → RE
deriving DecidableEq

/-- Capture environment: latest capture of each group, newest first. -/
abbrev Caps := List (Nat × String)

/-- Match state: the previously consumed character (for `\b`),
the remaining input, and the captures accumulated so far. -/
abbrev MState := Option Char × List Char × Caps

/-- All ways `r` can match a prefix of `rest`, in Python's
backtracking preference order.  `fuel` only guards termination;
it is chosen large enough below that it is never exhausted. -/
def mall : Nat → RE → Option Char → List Char → Caps → List MState
  | 0, _, _, _, _ => []
  | fuel + 1, r, prev, rest, caps =>
    match r with
    | .eps => [(prev, rest, caps)]
    | .lit c =>
      match rest with
      | [] => []
      | d :: ds => if c.toLower = d.toLower then [(some d, ds, caps)] else []
    | .cls s =>
      match rest with
      | [] => []
      | d :: ds => if s.data.contains d then [(some d, ds, caps)] else []
    | .digit =>
      match rest with
      | [] => []
      | d :: ds => if d.isDigit then [(some d, ds, caps)] else []
    | .wsp =>
      match rest with
      | [] => []
      | d :: ds => if pySpace d then [(some d, ds, caps)] else []
    | .wordB =>
      if isWordOpt prev ≠ isWordOpt rest.head? then [(prev, rest, caps)] else []
    | .cat a b =>
      (mall fuel a prev rest caps).flatMap fun s => mall fuel b s.1 s.2.1 s.2.2
    | .alt a b =>
      mall fuel a prev rest caps ++ mall fuel b prev rest caps
    | .opt a =>
      mall fuel a prev rest caps ++ [(prev, rest, caps)]
    | .star a =>
      (((mall fuel a prev rest caps).filter fun s => s.2.1.length < rest.length).flatMap
        fun s => mall fuel (.star a) s.1 s.2.1 s.2.2)
      ++ [(prev, rest, caps)]
    | .group i a =>
      (mall fuel a prev rest caps).map fun s =>
        (s.1, s.2.1, (i, String.mk (rest.take (rest.length - s.2.1.length))) :: s.2.2)

/-- Syntactic size of a pattern, used to choose a fuel bound. -/
def reSize : RE → Nat
  | .eps | .lit _ | .cls _ | .digit | .wsp | .wordB => 1
  | .cat a b | .alt a b => reSize a + reSize b + 1
  | .opt a | .star a | .group _ a => reSize a + 1

/-- Generous fuel: every recursive call of `mall` consumes one unit,
and the nesting depth is bounded by the pattern size times the
number of characters any starred subpattern can consume. -/
def fuelFor (r : RE) (rest : List Char) : Nat :=
  (reSize r + 2) * (rest.length + 2)

/-- `re.search` from a given position onward: returns the capture
environment of the leftmost match (the engine's first match at the
first position where any match exists). -/
def reSearchAux (r : RE) : Option Char → List Char → Option Caps
  | prev, rest =>
    match (mall (fuelFor r rest) r prev rest []).head? with
    | some s => some s.2.2
    | none =>
      match rest with
      | [] => none
      | c :: cs => reSearchAux r (some c) cs

/-- Python `re.search(pat, text, re.IGNORECASE)`, reduced to the
capture environment of the match (or `none` when there is no match). -/
def reSearch (r : RE) (text : String) : Option Caps :=
  reSearchAux r none text.data

/-- Number of capture groups of a pattern (groups are numbered 1..n). -/
def maxGroup : RE → Nat
  | .eps | .lit _ | .cls _ | .digit | .wsp | .wordB => 0
  | .cat a b | .alt a b => Nat.max (maxGroup a) (maxGroup b)
  | .opt a | .star a => maxGroup a
  | .group i a => Nat.max i (maxGroup a)

def capLookup (caps : Caps) (i : Nat) : Option String :=
  (caps.find? fun x => x.1 == i).map (·.2)

/-- Python `m.groups()`: the capture of each group in index order,
`none` for a group that did not participate in the match. -/
def patGroups (r : RE) (caps : Caps) : List (Option String) :=
  (List.range (maxGroup r)).map fun i => capLookup caps (i + 1)

/-! ## Pattern construction helpers and the pattern library -/

def rseq : List RE → RE
  | [] => .eps
  | [r] => r
  | r :: rs => .cat r (rseq rs)

def rstr (s : String) : RE :=
  rseq (s.data.map RE.lit)

def ralts : List RE → RE
  | [] => .eps
  | [r] => r
  | r :: rs => .alt r (ralts rs)

def rwords (ws : List String) : RE :=
  ralts (ws.map rstr)

def rplus (r : RE) : RE := .cat r (.star r)

/-- The separator class `[:#.=]`, optional. -/
def sepOpt : RE := .opt (.cls ":#.=")

def wsStar : RE := .star .wsp
def wsPlus : RE := rplus .wsp

/-- A numbered group capturing `\d+`. -/
def numG (i : Nat) : RE := .group i (rplus .digit)

/-- `\b(<label alternatives>)\b\s*[:#.=]?\s*(\d+)\b`. -/
def labeledNum (ws : List String) : RE :=
  rseq [.wordB, .group 1 (rwords ws), .wordB, wsStar, sepOpt, wsStar, numG 2, .wordB]

/-- `_PAGE_PATTERNS` of the source, in order. -/
def PAGE_PATTERNS : List RE := [
  labeledNum ["Page", "Pg", "P", "Stranica", "Str"],
  rseq [.wordB, .group 1 (rstr "Page"), wsPlus, numG 2, wsPlus, rstr "of", .wordB],
  rseq [.wordB, rstr "P", wsStar, rstr "=", wsStar, numG 1, .wordB],
  rseq [.wordB, rstr "P", numG 1, .wordB],
  rseq [.wordB, rstr "Str", wsStar, rstr "=", wsStar, numG 1, .wordB],
  rseq [.wordB, rstr "Str", numG 1, .wordB]]

/-- `_LINE_PATTERNS` of the source, in order. -/
def LINE_PATTERNS : List RE := [
  labeledNum ["Line", "Ln", "Row", "Linija", "Redak", "Retka"],
  rseq [.wordB, .group 1 (rstr "Line"), wsPlus, numG 2, wsPlus, rstr "of", .wordB],
  rseq [.wordB, .group 1 (rwords ["L", "R"]), .wordB, wsStar, sepOpt, wsStar, numG 2, .wordB],
  rseq [.wordB, rstr "L", wsStar, rstr "=", wsStar, numG 1, .wordB],
  rseq [.wordB, rstr "L", numG 1, .wordB],
  rseq [.wordB, rstr "Ln", .opt (rstr "."), wsStar, sepOpt, wsStar, numG 1, .wordB],
  rseq [.wordB, .group 1 (.cat (rstr "Red") (.opt (rstr "ak"))), .wordB,
        wsStar, sepOpt, wsStar, numG 2, .wordB]]

/-- `_COL_PATTERNS` of the source, in order. -/
def COL_PATTERNS : List RE := [
  labeledNum ["Column", "Col", "Cell", "Kolona", "Stupac", "Kol", "Stu"],
  rseq [.wordB, .group 1 (rstr "C"), wsStar, sepOpt, wsStar, numG 2, .wordB],
  rseq [.wordB, rstr "C", wsStar, rstr "=", wsStar, numG 1, .wordB],
  rseq [.wordB, rstr "C", numG 1, .wordB]]

/-! ## Digit runs: `re.findall(r"\d+", s)` -/

/-- Scanner for maximal decimal digit runs; `cur` is the reversed
run currently being read. -/
def digitRunsAux : List Char → List Char → List String
  | cur, [] => if cur.isEmpty then [] else [String.mk cur.reverse]
  | cur, c :: cs =>
    if c.isDigit then digitRunsAux (c :: cur) cs
    else if cur.isEmpty then digitRunsAux [] cs
    else String.mk cur.reverse :: digitRunsAux [] cs

/-- Python `re.findall(r"\d+", s)`: all maximal digit runs, in order. -/
def digitRuns (s : String) : List String :=
  digitRunsAux [] s.data

/-! ## `_match_first_number` -/

/-- Python `g and str(g).isdigit()`: a nonempty all-digit string. -/
def pyIsDigit (s : String) : Bool :=
  !s.data.isEmpty && s.data.all Char.isDigit

/-- The inner loop `for g in reversed(m.groups()): if g and
str(g).isdigit(): return g`. -/
def lastDigitGroup (gs : List (Option String)) : Option String :=
  gs.reverse.findSome? fun g =>
    match g with
    | some s => if pyIsDigit s then some s else none
    | none => none

/-- What one pattern contributes in `_match_first_number`: a match
whose reversed group scan yields an all-digit group. -/
def tryPattern (text : String) (r : RE) : Option String :=
  match reSearch r text with
  | none => none
  | some caps => lastDigitGroup (patGroups r caps)

/-- `_match_first_number(text, patterns)`: patterns are tried in
order; a pattern that matches is mined for its last all-digit group;
when the inner loop finds none, the outer loop simply continues with
the next pattern (there is no early `return None`). -/
def match_first_number (text : String) : List RE → Option String
  | [] => none
  | p :: rest =>
    match reSearch p text with
    | some caps =>
      match lastDigitGroup (patGroups p caps) with
      | some g => some g
      | none => match_first_number text rest
    | none => match_first_number text rest

/-! ## `_parse_from_any` -/

/-- The result dictionary: `out["page"]`, `out["line"]`, `out["col"]`;
`none` models absence of the key. -/
structure ParsedStatus where
  page : Option String
  line : Option String
  col : Option String
deriving DecidableEq

def emptyStatus : ParsedStatus := ⟨none, none, none⟩

/-- Python truthiness of an optional string (`if n:`). -/
def truthy : Option String → Bool
  | none => false
  | some s => !s.data.isEmpty

/-- `if "page" not in out: n = match(...); if n: out["page"] = n`
for a single field. -/
def tryField (cur : Option String) (text : String) (pats : List RE) : Option String :=
  match cur with
  | some v => some v
  | none =>
    match match_first_number text pats with
    | some n => if n.data.isEmpty then none else some n
    | none => none

/-- One text's worth of field attempts; this same block is the loop
body of stage 1 and, applied to the concatenated string, stage 2. -/
def stepCandidate (out : ParsedStatus) (t : String) : ParsedStatus :=
  { page := tryField out.page t PAGE_PATTERNS
    line := tryField out.line t LINE_PATTERNS
    col := tryField out.col t COL_PATTERNS }

def isComplete (out : ParsedStatus) : Bool :=
  out.page.isSome && out.line.isSome && out.col.isSome

/-- Stage 1: per-candidate pass with the early `break` once all
three fields are present. -/
def stage1 : ParsedStatus → List (Nat × String) → ParsedStatus
  | out, [] => out
  | out, (_, t) :: rest =>
    let out1 := stepCandidate out t
    if isComplete out1 then out1 else stage1 out1 rest

/-- `big = " | ".join(t for _, t in texts)`. -/
def bigJoin (texts : List (Nat × String)) : String :=
  String.intercalate " | " (texts.map (·.2))

/-- Python `dict.setdefault`: assign only when the key is absent. -/
def setdefault (cur : Option String) (v : String) : Option String :=
  match cur with
  | some p => some p
  | none => some v

/-- Stage 3: positional heuristic over the digit runs of the
concatenated string. -/
def stage3 (out : ParsedStatus) (big : String) : ParsedStatus :=
  match digitRuns big with
  | a :: b :: c :: _ =>
    { page := setdefault out.page a
      line := setdefault out.line b
      col := setdefault out.col c }
  | _ => out

/-- `_parse_from_any(texts)`. -/
def parse_from_any (texts : List (Nat × String)) : ParsedStatus :=
  let out := stage1 emptyStatus texts
  if isComplete out then out
  else
    let big := bigJoin texts
    stage3 (stepCandidate out big) big

/-! ## `_iter_children`

Nodes are identifiers; `ch : Nat → List Nat` gives each node's
(successfully enumerated) children, which may form an arbitrary —
even cyclic — graph.  `walkKids fuel kids c` is the loop body of the
generator `_walk`: `fuel` is the number of levels the depth check
still allows below the current frame, `c` the shared visit counter.
As in the source, the counter is tested only when a child's frame is
entered, never between siblings of an already-running frame. -/

/-- The sibling loop `for k in kids: count += 1; yield k;
yield from _walk(k, depth+1)`: `frame k c` is what entering the
child `k`'s own frame yields and how it advances the counter. -/
def walkSibs (frame : Nat → Nat → List Nat × Nat) : List Nat → Nat → List Nat × Nat
  | [], c => ([], c)
  | k :: ks, c =>
    let child := frame k (c + 1)
    let rest := walkSibs frame ks child.2
    (k :: (child.1 ++ rest.1), rest.2)

/-- One frame of `_walk(n, depth)`, with `fuel = max_depth + 1 - depth`
levels still allowed: the entry checks `depth > max_depth` and
`count >= max_nodes`, then the sibling loop over `n`'s children. -/
def walkFrame (ch : Nat → List Nat) (maxNodes : Nat) : Nat → Nat → Nat → List Nat × Nat
  | 0, _, c => ([], c)
  | f + 1, n, c =>
    if maxNodes ≤ c then ([], c)
    else walkSibs (fun k c1 => walkFrame ch maxNodes f k c1) (ch n) c

/-- `_iter_children(node, max_depth, max_nodes)`: the list of yielded
nodes together with the final value of the visit counter.  The root
frame runs at depth 0. -/
def iter_children (ch : Nat → List Nat) (maxDepth maxNodes : Nat) (root : Nat) : List Nat × Nat :=
  walkFrame ch maxNodes (maxDepth + 1) root 0

/-- Nodes reachable from `n` in at least one and at most `d` child
steps (used to state what "depth below the root" means). -/
def descWithin (ch : Nat → List Nat) : Nat → Nat → List Nat
  | 0, _ => []
  | d + 1, n => (ch n).flatMap fun k => k :: descWithin ch d k

/-! ## `_collect_candidate_texts` -/

/-- The numeric code of `controlTypes.Role.STATUSBAR` (an opaque
enum constant; only equality with it matters). -/
def STATUSBAR_ROLE : Nat := 0

/-- Read-only view of a UI node's attributes, indexed by node id.
`none` models both an absent attribute and a failed read. -/
structure UiEnv where
  children : Nat → List Nat
  role : Nat → Option Nat
  name : Nat → Option String
  value : Nat → Option String
  windowText : Nat → Option String
  description : Nat → Option String
  windowClassName : Nat → String

def STATUS_BAR_CLASSES : List String :=
  ["msctls_statusbar32", "statusbarwindow32", "tstatusbar"]

/-- `_add(txt, prio)`: skip falsy text, normalize, skip empty,
append. -/
def addCandidate (acc : List (Nat × String)) (p : Nat) (txt : Option String) : List (Nat × String) :=
  match txt with
  | none => acc
  | some t =>
    if t.data.isEmpty then acc
    else
      let s := normalizeWS t
      if s.data.isEmpty then acc else acc ++ [(p, s)]

/-- The four readable attributes, in the order the source reads them. -/
def nodeAttrs (env : UiEnv) (n : Nat) : List (Option String) :=
  [env.name n, env.value n, env.windowText n, env.description n]

/-- The per-node body of the collection loop. -/
def collectFromNode (env : UiEnv) (acc : List (Nat × String)) (n : Nat) : List (Nat × String) :=
  if env.role n = some STATUSBAR_ROLE then
    (nodeAttrs env n).foldl (fun a t => addCandidate a 0 t) acc
  else
    let basePr := if (env.windowClassName n).toLower ∈ STATUS_BAR_CLASSES then 1 else 2
    (nodeAttrs env n).foldl (fun a t => addCandidate a basePr t) acc

/-- `unique = []; seen = set(); for pr, s in ...: if s not in seen ...`. -/
def keepFirstByText : List (Nat × String) → List String → List (Nat × String)
  | [], _ => []
  | (p, s) :: rest, seen =>
    if s ∈ seen then keepFirstByText rest seen
    else (p, s) :: keepFirstByText rest (s :: seen)

/-- `sorted(candidates, key=lambda x: x[0])` followed by the
first-occurrence filter.  Python's sort is the (unique) stable
ascending sort by key, which insertion sort with `≤` on the key
computes. -/
def sortAndDedup (l : List (Nat × String)) : List (Nat × String) :=
  keepFirstByText (List.insertionSort (fun a b => a.1 ≤ b.1) l) []

/-- `_collect_candidate_texts()`, with the foreground object passed
explicitly (`none` models `getForegroundObject` failing or returning
a falsy value). -/
def collect_candidate_texts (env : UiEnv) (fg : Option Nat) : List (Nat × String) :=
  match fg with
  | none => []
  | some root =>
    let visited := (iter_children env.children 6 800 root).1
    sortAndDedup (visited.foldl (collectFromNode env) [])

/-! ## `_get_status_text_api` and the scripts

`attempts i` is what the i-th call of `api.getStatusBarText()`
produces: `none` models a raised exception, `some t` a returned
string.  The `time.sleep(0.03)` between attempts has no observable
effect in this model. -/

def getApiLoop (attempts : Nat → Option String) : Nat → Nat → Option String
  | _, 0 => none
  | i, k + 1 =>
    match attempts i with
    | some t =>
      if !t.data.isEmpty && !(stripStr t).data.isEmpty then some (normalizeWS t)
      else getApiLoop attempts (i + 1) k
    | none => getApiLoop attempts (i + 1) k

/-- `_get_status_text_api()`: `for _ in range(3): ...`. -/
def get_status_text_api (attempts : Nat → Option String) : Option String :=
  getApiLoop attempts 0 3

/-- What a script invocation does: either the built-in delegate
handled everything, or a string was sent to `ui.message`. -/
inductive Spoken where
  | builtin : Spoken
  | message : String → Spoken
deriving DecidableEq

/-- The `parts` list built by the status script: resolved fields
only, in the fixed order page, line, column. -/
def statusParts (p : ParsedStatus) : List String :=
  (match p.page with | some v => ["Page " ++ v] | none => []) ++
  (match p.line with | some v => ["Line " ++ v] | none => []) ++
  (match p.col with | some v => ["Column " ++ v] | none => [])

/-- `script_reportDuxburyStatus`: built-in delegate, then direct
API text, then the collector+parser pipeline. -/
def script_reportDuxburyStatus (builtinOk : Bool) (attempts : Nat → Option String)
    (env : UiEnv) (fg : Option Nat) : Spoken :=
  if builtinOk then .builtin
  else
    match get_status_text_api attempts with
    | some text => .message text
    | none =>
      let parsed := parse_from_any (collect_candidate_texts env fg)
      if parsed ≠ emptyStatus then
        let parts := statusParts parsed
        if parts ≠ [] then .message (String.intercalate ", " parts)
        else .message "Status bar not available."
      else .message "Status bar not available."

/-- The UI-scan fallback shared by the tail of
`script_reportDuxburyLine`. -/
def lineFromScan (env : UiEnv) (fg : Option Nat) : Spoken :=
  let parsed := parse_from_any (collect_candidate_texts env fg)
  match parsed.line with
  | some l => .message ("Line " ++ l)
  | none => .message "Line number not available."

/-- `script_reportDuxburyLine`: direct API text with only the line
patterns, a positional fallback on exactly three digit runs, then
the UI-scan pipeline. -/
def script_reportDuxburyLine (attempts : Nat → Option String)
    (env : UiEnv) (fg : Option Nat) : Spoken :=
  match get_status_text_api attempts with
  | some text =>
    let n0 := match_first_number text LINE_PATTERNS
    let n : Option String :=
      if truthy n0 then n0
      else
        match digitRuns text with
        | [_, b, _] => some b
        | _ => n0
    if truthy n then .message ("Line " ++ n.getD "")
    else lineFromScan env fg
  | none => lineFromScan env fg

/-! ## Definitions taken from the specification's words

These re-state, independently of the code's control flow, what the
spec says the corresponding operation produces; the theorems below
compare them with the translated code. -/

/-- The labelled-pattern stages 1 and 2 composed, without the early
return: the fields resolved by labelled patterns only. -/
def stages12 (texts : List (Nat × String)) : ParsedStatus :=
  stepCandidate (stage1 emptyStatus texts) (bigJoin texts)

/-- A nonempty decimal digit string, the invariant the spec states
for every populated `ParsedStatus` field. -/
def fieldsDigits (p : ParsedStatus) : Prop :=
  (∀ s, p.page = some s → pyIsDigit s = true) ∧
  (∀ s, p.line = some s → pyIsDigit s = true) ∧
  (∀ s, p.col = some s → pyIsDigit s = true)

/-- Follows the spec's words for the field matcher: patterns are
tried in listed order and the FIRST PATTERN THAT MATCHES determines
the result — the last non-empty all-digit capture group of its
match, with no further pattern consulted. -/
def specMatchFirstNumber (text : String) : List RE → Option String
  | [] => none
  | p :: rest =>
    match reSearch p text with
    | some caps => lastDigitGroup (patGroups p caps)
    | none => specMatchFirstNumber text rest

/-- Follows the spec's words for the full status report's composed
message: resolved fields only, fixed order page/line/column, joined
by ", ", or the fixed fallback text when nothing resolved. -/
def specStatusMessage (p : ParsedStatus) : String :=
  if p = emptyStatus then "Status bar not available."
  else
    String.intercalate ", "
      ((p.page.map (fun v => "Page " ++ v)).toList ++
       (p.line.map (fun v => "Line " ++ v)).toList ++
       (p.col.map (fun v => "Column " ++ v)).toList)

/-- Follows the spec's words for the line-only report's pipeline
fallback: the line field if resolved, else the fixed message. -/
def specLineScanFallback (p : ParsedStatus) : Spoken :=
  match p.line with
  | some l => .message ("Line " ++ l)
  | none => .message "Line number not available."

/-- Follows the spec's words for the line-only report: with direct
text, only the line pattern set; failing that, the 2nd digit run
exactly when there are exactly 3 digit runs; otherwise (or with no
direct text) the collector+parser pipeline's line field. -/
def specLineReport (direct : Option String) (p : ParsedStatus) : Spoken :=
  match direct with
  | some text =>
    match match_first_number text LINE_PATTERNS with
    | some n => .message ("Line " ++ n)
    | none =>
      match digitRuns text with
      | [_, b, _] => .message ("Line " ++ b)
      | _ => specLineScanFallback p
  | none => specLineScanFallback p

/-- Follows the spec's words for the direct-status accessor: up to 3
attempts, stopping at the first whose text is non-blank, returning
it whitespace-normalized, `none` when every attempt raises or
returns blank text. -/
def specDirectStatusText (attempts : Nat → Option String) : Option String :=
  (List.range 3).findSome? fun i =>
    (attempts i).bind fun t =>
      if (stripStr t).data.isEmpty then none else some (normalizeWS t)

/-! ## Concrete inputs used by counterexamples and witnesses -/

/-- An 8-deep chain below node 0: node `n` is at depth `n`. -/
def chainCh : Nat → List Nat := fun n => if n < 8 then [n + 1] else []

/-- An (unbounded) ternary tree: more than 800 nodes lie within the
depth the walk explores, so the visit counter overshoots. -/
def terCh : Nat → List Nat := fun n => [3 * n + 1, 3 * n + 2, 3 * n + 3]

/-- A pattern matching "ab" with two groups, neither all-digit. -/
def cexPatA : RE := .cat (.group 1 (rstr "a")) (.group 2 (rstr "b"))

/-- A pattern with one group capturing a single digit. -/
def cexPatB : RE := .group 1 .digit

/-- An accessor whose every attempt raises. -/
def noAtt : Nat → Option String := fun _ => none

/-- An accessor that immediately returns a full status string
(end-to-end scenario D of the spec). -/
def attD : Nat → Option String :=
  fun _ => some "Page: 2, Line: 100, Column: 1"

/-- A UI tree with no nodes at all below the foreground window. -/
def emptyEnv : UiEnv :=
  ⟨fun _ => [], fun _ => none, fun _ => none, fun _ => none,
   fun _ => none, fun _ => none, fun _ => ""⟩

/-- Children for the attribute-independence witness: the root 0 has
the single strict descendant 1. -/
def oneChildCh : Nat → List Nat := fun n => if n = 0 then [1] else []

/-- Root 0 carries a page label in `name`; descendant 1 a line label. -/
def envW1 : UiEnv :=
  ⟨oneChildCh, fun _ => none,
   fun n => if n = 0 then some "Page 9" else some "Line 3",
   fun _ => none, fun _ => none, fun _ => none, fun _ => ""⟩

/-- Same tree, but the root's own `name` differs. -/
def envW2 : UiEnv :=
  ⟨oneChildCh, fun _ => none,
   fun n => if n = 0 then some "Col 7" else some "Line 3",
   fun _ => none, fun _ => none, fun _ => none, fun _ => ""⟩

/-! # Theorems

First the traversal bounds (claim C1), then the collector's
sort/dedup (C3), the parser (C2, C4, C5, C9), and the dispatcher
operations (C6, C7, C8, C10). -/

theorem max_succ_le (c m : Nat) : Nat.max (c + 1) m ≤ Nat.max c m + 1 :=
  Nat.max_le.mpr
    ⟨Nat.succ_le_succ (Nat.le_max_left c m),
     Nat.le_trans (Nat.le_max_right c m) (Nat.le_succ _)⟩

theorem walkSibs_count (frame : Nat → Nat → List Nat × Nat) (bound : Nat)
    (hf : ∀ k c, (frame k c).2 ≤ Nat.max c bound) :
    ∀ kids c, (walkSibs frame kids c).2 ≤ Nat.max c bound + kids.length := by
  intro kids
  induction kids with
  | nil => intro c; simp [walkSibs]
  | cons k ks ih =>
    intro c
    simp only [walkSibs, List.length_cons]
    have h2 : Nat.max (frame k (c + 1)).2 bound ≤ Nat.max (c + 1) bound :=
      Nat.max_le.mpr ⟨hf k (c + 1), Nat.le_max_right _ _⟩
    calc (walkSibs frame ks (frame k (c + 1)).2).2
        ≤ Nat.max (frame k (c + 1)).2 bound + ks.length := ih _
      _ ≤ Nat.max (c + 1) bound + ks.length := Nat.add_le_add_right h2 _
      _ ≤ (Nat.max c bound + 1) + ks.length := Nat.add_le_add_right (max_succ_le _ _) _
      _ = Nat.max c bound + (ks.length + 1) := by omega

theorem walkFrame_count (ch : Nat → List Nat) (mN B : Nat)
    (hB : ∀ n, (ch n).length ≤ B) :
    ∀ fuel n c, (walkFrame ch mN fuel n c).2 ≤ Nat.max c (mN + fuel * B) := by
  intro fuel
  induction fuel with
  | zero => intro n c; simp [walkFrame]
  | succ f ihf =>
    intro n c
    simp only [walkFrame]
    split
    · exact Nat.le_max_left _ _
    · rename_i hc
      have hcount :=
        walkSibs_count (fun k c1 => walkFrame ch mN f k c1) (mN + f * B)
          (fun k c1 => ihf k c1) (ch n) c
      have h1 : Nat.max c (mN + f * B) = mN + f * B :=
        Nat.max_eq_right (Nat.le_trans (Nat.le_of_lt (Nat.lt_of_not_le hc))
          (Nat.le_add_right _ _))
      calc (walkSibs (fun k c1 => walkFrame ch mN f k c1) (ch n) c).2
          ≤ Nat.max c (mN + f * B) + (ch n).length := hcount
        _ ≤ (mN + f * B) + B := by rw [h1]; exact Nat.add_le_add_left (hB n) _
        _ = mN + (f + 1) * B := by rw [Nat.succ_mul]; omega
        _ ≤ Nat.max c (mN + (f + 1) * B) := Nat.le_max_right _ _

theorem walkSibs_subset (frame : Nat → Nat → List Nat × Nat) (g : Nat → List Nat)
    (hf : ∀ k c x, x ∈ (frame k c).1 → x ∈ g k) :
    ∀ kids c x, x ∈ (walkSibs frame kids c).1 →
      x ∈ kids.flatMap (fun k => k :: g k) := by
  intro kids
  induction kids with
  | nil => intro c x hx; simp [walkSibs] at hx
  | cons k ks ih =>
    intro c x hx
    simp only [walkSibs, List.mem_cons, List.mem_append] at hx
    simp only [List.flatMap_cons, List.mem_append, List.mem_cons]
    rcases hx with h | h | h
    · exact Or.inl (Or.inl h)
    · exact Or.inl (Or.inr (hf k (c + 1) x h))
    · rcases List.mem_flatMap.mp (ih _ x h) with ⟨a, ha, hxa⟩
      exact Or.inr (List.mem_flatMap.mpr ⟨a, ha, hxa⟩)

theorem walkFrame_subset (ch : Nat → List Nat) (mN : Nat) :
    ∀ fuel n c x, x ∈ (walkFrame ch mN fuel n c).1 → x ∈ descWithin ch fuel n := by
  intro fuel
  induction fuel with
  | zero => intro n c x hx; simp [walkFrame] at hx
  | succ f ihf =>
    intro n c x hx
    simp only [walkFrame] at hx
    split at hx
    · simp at hx
    · have h := walkSibs_subset (fun k c1 => walkFrame ch mN f k c1)
        (descWithin ch f) (fun k c1 x hx1 => ihf k c1 x hx1) (ch n) c x hx
      simpa [descWithin] using h

theorem walkSibs_len (frame : Nat → Nat → List Nat × Nat)
    (hf : ∀ k c, (frame k c).2 = c + (frame k c).1.length) :
    ∀ kids c, (walkSibs frame kids c).2 = c + (walkSibs frame kids c).1.length := by
  intro kids
  induction kids with
  | nil => intro c; simp [walkSibs]
  | cons k ks ih =>
    intro c
    simp only [walkSibs, List.length_cons, List.length_append]
    rw [ih, hf]
    omega

theorem walkFrame_len (ch : Nat → List Nat) (mN : Nat) :
    ∀ fuel n c, (walkFrame ch mN fuel n c).2 = c + (walkFrame ch mN fuel n c).1.length := by
  intro fuel
  induction fuel with
  | zero => intro n c; simp [walkFrame]
  | succ f ihf =>
    intro n c
    simp only [walkFrame]
    split
    · simp
    · exact walkSibs_len _ (fun k c1 => ihf k c1) (ch n) c

/-- C1, amended.  The traversal always terminates (it is a total
function, even on cyclic child graphs), but the spec's exact bounds
are soft: nodes up to depth 7 below the root are yielded (children
of a depth-6 frame are still visited), and the visit counter —
which equals the number of yielded nodes — is only bounded by
`800 + 7 * B` when every node has at most `B` children, because the
count check runs on entering a child's frame, not between siblings. -/
theorem iter_children_bounds_amended (ch : Nat → List Nat) (root B : Nat)
    (hB : ∀ n, (ch n).length ≤ B) :
    (∀ x ∈ (iter_children ch 6 800 root).1, x ∈ descWithin ch 7 root) ∧
    (iter_children ch 6 800 root).2 ≤ 800 + 7 * B ∧
    (iter_children ch 6 800 root).2 = (iter_children ch 6 800 root).1.length := by
  refine ⟨fun x hx => walkFrame_subset ch 800 7 root 0 x hx, ?_, ?_⟩
  · calc (walkFrame ch 800 7 root 0).2
        ≤ Nat.max 0 (800 + 7 * B) := walkFrame_count ch 800 B hB 7 root 0
      _ = 800 + 7 * B := Nat.max_eq_right (Nat.zero_le _)
  · simpa using walkFrame_len ch 800 7 root 0

theorem iter_children_bounds_amended_witness :
    (∀ n, (chainCh n).length ≤ 1) ∧
    ((∀ x ∈ (iter_children chainCh 6 800 0).1, x ∈ descWithin chainCh 7 0) ∧
      (iter_children chainCh 6 800 0).2 ≤ 800 + 7 * 1) := by
  have hB : ∀ n, (chainCh n).length ≤ 1 := by
    intro n; unfold chainCh; split <;> simp
  have h := iter_children_bounds_amended chainCh 0 1 hB
  exact ⟨hB, h.1, h.2.1⟩

/-- C1 fails as stated: on an 8-deep chain the node at depth 7
below the root is yielded (the spec says the walk stops at depth 6),
and on a ternary tree the visit counter reaches 807 > 800 (the spec
says at most 800 nodes are ever counted). -/
theorem iter_children_exceeds_spec_bounds :
    (7 ∈ (iter_children chainCh 6 800 0).1 ∧ 7 ∉ descWithin chainCh 6 0) ∧
    800 < (iter_children terCh 6 800 0).2 := by
  exact ⟨by decide, by decide⟩

/-! ## Sort and dedup (claim C3) -/

instance : IsTotal (Nat × String) (fun a b => a.1 ≤ b.1) :=
  ⟨fun a b => Nat.le_total a.1 b.1⟩

instance : IsTrans (Nat × String) (fun a b => a.1 ≤ b.1) :=
  ⟨fun _ _ _ h1 h2 => Nat.le_trans h1 h2⟩

theorem keepFirst_sublist : ∀ (l : List (Nat × String)) (seen : List String),
    List.Sublist (keepFirstByText l seen) l := by
  intro l
  induction l with
  | nil => intro seen; simp [keepFirstByText]
  | cons x rest ih =>
    intro seen
    obtain ⟨p, s⟩ := x
    simp only [keepFirstByText]
    split
    · exact (ih seen).trans (List.sublist_cons_self _ _)
    · exact (ih _).cons₂ (p, s)

theorem keepFirst_mem_snd : ∀ (l : List (Nat × String)) (seen : List String) (s : String),
    s ∈ (keepFirstByText l seen).map Prod.snd ↔ s ∈ l.map Prod.snd ∧ s ∉ seen := by
  intro l
  induction l with
  | nil => intro seen s; simp [keepFirstByText]
  | cons x rest ih =>
    intro seen s
    obtain ⟨p, t⟩ := x
    simp only [keepFirstByText]
    split
    · rename_i ht
      rw [ih]
      simp only [List.map_cons, List.mem_cons]
      constructor
      · rintro ⟨h1, h2⟩
        exact ⟨Or.inr h1, h2⟩
      · rintro ⟨h1 | h1, h2⟩
        · exact absurd (h1 ▸ ht) h2
        · exact ⟨h1, h2⟩
    · rename_i ht
      simp only [List.map_cons, List.mem_cons, ih, List.mem_cons]
      constructor
      · rintro (h | ⟨h1, h2⟩)
        · exact ⟨Or.inl h, h ▸ ht⟩
        · exact ⟨Or.inr h1, fun hs => h2 (Or.inr hs)⟩
      · rintro ⟨h1 | h1, h2⟩
        · exact Or.inl h1
        · by_cases hst : s = t
          · exact Or.inl hst
          · exact Or.inr ⟨h1, fun h => (h.elim hst h2 : False)⟩

theorem keepFirst_nodup : ∀ (l : List (Nat × String)) (seen : List String),
    ((keepFirstByText l seen).map Prod.snd).Nodup := by
  intro l
  induction l with
  | nil => intro seen; simp [keepFirstByText]
  | cons x rest ih =>
    intro seen
    obtain ⟨p, t⟩ := x
    simp only [keepFirstByText]
    split
    · exact ih seen
    · simp only [List.map_cons, List.nodup_cons]
      refine ⟨?_, ih _⟩
      rw [keepFirst_mem_snd]
      rintro ⟨-, h2⟩
      exact h2 (List.mem_cons_self t seen)

theorem keepFirst_first_occ :
    ∀ (l : List (Nat × String)) (seen : List String) (p : Nat) (s : String),
      (p, s) ∈ keepFirstByText l seen →
        s ∉ seen ∧ ∃ l1 l2, l = l1 ++ (p, s) :: l2 ∧ ∀ x ∈ l1, x.2 ≠ s := by
  intro l
  induction l with
  | nil => intro seen p s h; simp [keepFirstByText] at h
  | cons x rest ih =>
    intro seen p s h
    obtain ⟨q, t⟩ := x
    simp only [keepFirstByText] at h
    split at h
    · rename_i ht
      obtain ⟨hs, l1, l2, heq, hl1⟩ := ih seen p s h
      refine ⟨hs, (q, t) :: l1, l2, by simp [heq], ?_⟩
      intro x hx
      rcases List.mem_cons.mp hx with h1 | h1
      · rw [h1]
        exact fun hts => hs (hts ▸ ht)
      · exact hl1 x h1
    · rename_i ht
      rcases List.mem_cons.mp h with h1 | h1
      · rw [Prod.mk.injEq] at h1
        obtain ⟨rfl, rfl⟩ := h1
        exact ⟨ht, [], rest, rfl, by simp⟩
      · obtain ⟨hs, l1, l2, heq, hl1⟩ := ih _ p s h1
        have hs2 : s ∉ seen := fun h' => hs (List.mem_cons_of_mem _ h')
        have hst : s ≠ t := fun h' => hs (h' ▸ List.mem_cons_self t seen)
        refine ⟨hs2, (q, t) :: l1, l2, by simp [heq], ?_⟩
        intro x hx
        rcases List.mem_cons.mp hx with h2 | h2
        · rw [h2]; exact fun h' => hst h'.symm
        · exact hl1 x h2

theorem filter_orderedInsert (pr : Nat) (a : Nat × String) :
    ∀ l : List (Nat × String),
      (List.orderedInsert (fun x y => x.1 ≤ y.1) a l).filter (fun x => x.1 == pr) =
        if a.1 == pr then a :: l.filter (fun x => x.1 == pr)
        else l.filter (fun x => x.1 == pr) := by
  intro l
  induction l with
  | nil =>
    by_cases ha : a.1 = pr <;> simp [List.orderedInsert, List.filter_cons, ha]
  | cons b bs ih =>
    simp only [List.orderedInsert]
    split
    · by_cases ha : a.1 = pr <;> simp [List.filter_cons, ha]
    · rename_i hab
      rw [List.filter_cons, ih]
      by_cases hb : b.1 = pr <;> by_cases ha : a.1 = pr <;>
        simp_all [List.filter_cons]

theorem filter_insertionSort (pr : Nat) (l : List (Nat × String)) :
    (List.insertionSort (fun x y => x.1 ≤ y.1) l).filter (fun x => x.1 == pr) =
      l.filter (fun x => x.1 == pr) := by
  induction l with
  | nil => rfl
  | cons x xs ih =>
    simp only [List.insertionSort]
    rw [filter_orderedInsert, List.filter_cons, ih]

/-- C3: the collector's output is sorted ascending by priority,
contains each text exactly once, every surviving pair is an input
pair whose priority is minimal among all input pairs with that text,
and for each priority level the surviving pairs appear in their
original discovery order (stability). -/
theorem collector_sort_dedup_spec (l : List (Nat × String)) :
    List.Sorted (fun a b : Nat × String => a.1 ≤ b.1) (sortAndDedup l) ∧
    ((sortAndDedup l).map Prod.snd).Nodup ∧
    (∀ s, s ∈ (sortAndDedup l).map Prod.snd ↔ s ∈ l.map Prod.snd) ∧
    (∀ p s, (p, s) ∈ sortAndDedup l → (p, s) ∈ l ∧ ∀ q, (q, s) ∈ l → p ≤ q) ∧
    (∀ p, List.Sublist ((sortAndDedup l).filter (fun x => x.1 == p))
      (l.filter (fun x => x.1 == p))) := by
  have hperm := List.perm_insertionSort (fun a b : Nat × String => a.1 ≤ b.1) l
  have hsorted := List.sorted_insertionSort (fun a b : Nat × String => a.1 ≤ b.1) l
  have hsub : List.Sublist (sortAndDedup l)
      (List.insertionSort (fun a b : Nat × String => a.1 ≤ b.1) l) :=
    keepFirst_sublist _ _
  refine ⟨hsorted.sublist hsub, keepFirst_nodup _ _, ?_, ?_, ?_⟩
  · intro s
    rw [sortAndDedup, keepFirst_mem_snd]
    simp only [List.not_mem_nil, not_false_iff, and_true]
    exact (hperm.map Prod.snd).mem_iff
  · intro p s h
    have hl : (p, s) ∈ l := hperm.mem_iff.mp (hsub.subset h)
    refine ⟨hl, ?_⟩
    intro q hq
    obtain ⟨-, l1, l2, heq, hl1⟩ := keepFirst_first_occ _ _ p s h
    have hq2 : (q, s) ∈ List.insertionSort (fun a b : Nat × String => a.1 ≤ b.1) l :=
      hperm.mem_iff.mpr hq
    rw [heq] at hq2
    rcases List.mem_append.mp hq2 with h1 | h1
    · exact absurd rfl (hl1 _ h1)
    · rcases List.mem_cons.mp h1 with h2 | h2
      · exact Nat.le_of_eq (congrArg Prod.fst h2).symm
      · have hs2 := hsorted
        rw [heq] at hs2
        have hpw := (List.pairwise_append.mp hs2).2.1
        exact (List.pairwise_cons.mp hpw).1 _ h2
  · intro p
    have := hsub.filter (fun x => x.1 == p)
    rwa [filter_insertionSort] at this

theorem collector_sort_dedup_spec_witness :
    (((0, "x") : Nat × String) ∈ sortAndDedup [(2, "x"), (0, "y"), (0, "x")]) ∧
    (((0, "x") : Nat × String) ∈ [((2, "x") : Nat × String), (0, "y"), (0, "x")] ∧
      (0 : Nat) ≤ 2) := by
  have h := collector_sort_dedup_spec [((2, "x") : Nat × String), (0, "y"), (0, "x")]
  have hmem : ((0, "x") : Nat × String) ∈ sortAndDedup [(2, "x"), (0, "y"), (0, "x")] := by
    decide
  have h2 := h.2.2.2.1 0 "x" hmem
  exact ⟨hmem, h2.1, h2.2 2 (by decide)⟩

/-! ## Parser stages (claims C2, C4, C9) -/

theorem stepCandidate_of_complete (out : ParsedStatus) (t : String)
    (h : isComplete out = true) : stepCandidate out t = out := by
  obtain ⟨p, l, c⟩ := out
  simp only [isComplete, Bool.and_eq_true, Option.isSome_iff_exists] at h
  obtain ⟨⟨⟨vp, hp⟩, vl, hl⟩, vc, hc⟩ := h
  subst hp; subst hl; subst hc
  simp [stepCandidate, tryField]

theorem stage1_of_complete (l : List (Nat × String)) (out : ParsedStatus)
    (h : isComplete out = true) : stage1 out l = out := by
  induction l with
  | nil => rfl
  | cons x rest ih =>
    obtain ⟨p, t⟩ := x
    simp [stage1, stepCandidate_of_complete out t h, h, ih]

theorem stage1_append_of_complete :
    ∀ (l1 l2 : List (Nat × String)) (out : ParsedStatus),
      isComplete (stage1 out l1) = true →
      stage1 out (l1 ++ l2) = stage1 out l1 := by
  intro l1
  induction l1 with
  | nil =>
    intro l2 out h
    simp only [stage1] at h
    simpa [stage1] using stage1_of_complete l2 out h
  | cons x rest ih =>
    intro l2 out h
    obtain ⟨p, t⟩ := x
    simp only [List.cons_append, stage1] at h ⊢
    by_cases h1 : isComplete (stepCandidate out t) = true
    · simp [h1]
    · simp only [h1, if_false] at h ⊢
      exact ih l2 _ h

/-- C4: once some prefix of the per-candidate pass resolves page,
line and column, no later candidate influences the result, stage 2
and stage 3 never run, and the parser returns exactly the stage-1
assignment of that prefix. -/
theorem stage1_short_circuit (pfx rest : List (Nat × String))
    (h : isComplete (stage1 emptyStatus pfx) = true) :
    parse_from_any (pfx ++ rest) = stage1 emptyStatus pfx := by
  have h2 := stage1_append_of_complete pfx rest emptyStatus h
  simp [parse_from_any, h2, h]

theorem stage1_short_circuit_witness :
    isComplete (stage1 emptyStatus [(0, "P 1 L 2 C 3")]) = true ∧
    parse_from_any ([((0 : Nat), "P 1 L 2 C 3")] ++ [(2, "P 7 L 8 C 9")]) =
      stage1 emptyStatus [(0, "P 1 L 2 C 3")] := by
  have h : isComplete (stage1 emptyStatus [(0, "P 1 L 2 C 3")]) = true := by decide
  exact ⟨h, stage1_short_circuit _ _ h⟩

/-- C2: the parser's result is the stages-1-2 result with, exactly
when the concatenated text holds at least three digit runs, the
1st/2nd/3rd run `setdefault`-ed into page/line/column — so a field
resolved by the labelled stages is never overwritten, and when all
three fields were already resolved the fallback changes nothing. -/
theorem positional_fallback_setdefault (texts : List (Nat × String)) :
    parse_from_any texts =
      match digitRuns (bigJoin texts) with
      | a :: b :: c :: _ =>
        { page := setdefault (stages12 texts).page a
          line := setdefault (stages12 texts).line b
          col := setdefault (stages12 texts).col c }
      | _ => stages12 texts := by
  unfold parse_from_any stages12
  by_cases h : isComplete (stage1 emptyStatus texts) = true
  · rw [stepCandidate_of_complete _ _ h]
    simp only [h, if_true]
    rcases hS : stage1 emptyStatus texts with ⟨p, l, c⟩
    rw [hS] at h
    simp only [isComplete, Bool.and_eq_true, Option.isSome_iff_exists] at h
    obtain ⟨⟨⟨vp, hp⟩, vl, hl⟩, vc, hc⟩ := h
    subst hp; subst hl; subst hc
    cases digitRuns (bigJoin texts) with
    | nil => rfl
    | cons a t1 =>
      cases t1 with
      | nil => rfl
      | cons b t2 =>
        cases t2 with
        | nil => rfl
        | cons c2 t3 => simp [setdefault]
  · simp only [h, if_false]
    simp [stage3]

theorem stage1_depends_on_texts :
    ∀ (l l' : List (Nat × String)) (out : ParsedStatus),
      l.map Prod.snd = l'.map Prod.snd → stage1 out l = stage1 out l' := by
  intro l
  induction l with
  | nil =>
    intro l' out h
    rw [List.map_nil] at h
    rw [List.map_eq_nil_iff.mp h.symm]
  | cons x rest ih =>
    intro l' out h
    obtain ⟨p, t⟩ := x
    cases l' with
    | nil => simp at h
    | cons y rest' =>
      obtain ⟨q, u⟩ := y
      simp only [List.map_cons, List.cons.injEq] at h
      obtain ⟨rfl, h2⟩ := h
      simp only [stage1]
      rw [ih rest' _ h2]

/-- C9: the parser reads only the text component of each candidate;
two candidate lists with the same texts in the same order parse
identically whatever their priorities. -/
theorem parser_ignores_priorities (l l' : List (Nat × String))
    (h : l.map Prod.snd = l'.map Prod.snd) :
    parse_from_any l = parse_from_any l' := by
  have h1 : stage1 emptyStatus l = stage1 emptyStatus l' :=
    stage1_depends_on_texts l l' _ h
  have h2 : bigJoin l = bigJoin l' := by unfold bigJoin; rw [h]
  unfold parse_from_any
  rw [h1, h2]

theorem parser_ignores_priorities_witness :
    ([((0 : Nat), "Line 4")].map Prod.snd = [((9 : Nat), "Line 4")].map Prod.snd) ∧
    parse_from_any [(0, "Line 4")] = parse_from_any [(9, "Line 4")] :=
  ⟨rfl, parser_ignores_priorities _ _ rfl⟩

/-! ## Digit strings (claim C5) -/

theorem lastDigitGroup_digits (gs : List (Option String)) (s : String)
    (h : lastDigitGroup gs = some s) : pyIsDigit s = true := by
  obtain ⟨g, hg, hfg⟩ := List.exists_of_findSome?_eq_some h
  cases g with
  | none => simp at hfg
  | some t =>
    by_cases hd : pyIsDigit t = true
    · simp only [hd, if_true] at hfg
      injection hfg with hts
      exact hts ▸ hd
    · simp [hd] at hfg

theorem match_first_number_digits :
    ∀ (pats : List RE) (text s : String),
      match_first_number text pats = some s → pyIsDigit s = true := by
  intro pats
  induction pats with
  | nil => intro text s h; simp [match_first_number] at h
  | cons p rest ih =>
    intro text s h
    simp only [match_first_number] at h
    cases hs : reSearch p text with
    | none => simp only [hs] at h; exact ih text s h
    | some caps =>
      simp only [hs] at h
      cases hg : lastDigitGroup (patGroups p caps) with
      | none => simp only [hg] at h; exact ih text s h
      | some g =>
        simp only [hg] at h
        injection h with h
        exact h ▸ lastDigitGroup_digits _ _ hg

theorem digitRunsAux_digits :
    ∀ (rest cur : List Char), cur.all Char.isDigit = true →
      ∀ x ∈ digitRunsAux cur rest, pyIsDigit x = true := by
  intro rest
  induction rest with
  | nil =>
    intro cur hcur x hx
    simp only [digitRunsAux] at hx
    split at hx
    · simp at hx
    · rename_i hne
      rcases List.mem_cons.mp hx with h | h
      · subst h
        simp only [pyIsDigit, String.mk]
        simp_all [List.isEmpty_iff]
      · simp at h
  | cons c cs ih =>
    intro cur hcur x hx
    simp only [digitRunsAux] at hx
    by_cases hc : c.isDigit = true
    · rw [if_pos hc] at hx
      exact ih (c :: cur) (by simp [hcur, hc]) x hx
    · rw [if_neg (by simp [hc])] at hx
      by_cases he : cur.isEmpty = true
      · rw [if_pos he] at hx
        exact ih [] rfl x hx
      · rw [if_neg (by simp [List.isEmpty_iff] at he ⊢; exact he)] at hx
        rcases List.mem_cons.mp hx with h | h
        · subst h
          simp only [pyIsDigit, String.mk]
          simp_all [List.isEmpty_iff]
        · exact ih [] rfl x h

theorem digitRuns_digits (s : String) : ∀ x ∈ digitRuns s, pyIsDigit x = true :=
  digitRunsAux_digits s.data [] rfl

theorem tryField_digits (cur : Option String) (t : String) (pats : List RE)
    (hcur : ∀ v, cur = some v → pyIsDigit v = true) :
    ∀ v, tryField cur t pats = some v → pyIsDigit v = true := by
  intro v h
  cases cur with
  | some w =>
    simp only [tryField] at h
    injection h with h
    exact h ▸ hcur w rfl
  | none =>
    simp only [tryField] at h
    cases hm : match_first_number t pats with
    | none => rw [hm] at h; simp at h
    | some n =>
      rw [hm] at h
      by_cases hn : n.data.isEmpty = true
      · simp [hn] at h
      · simp only [hn, Bool.false_eq_true, if_false] at h
        injection h with h
        exact h ▸ match_first_number_digits pats t n hm

theorem fieldsDigits_step (out : ParsedStatus) (t : String)
    (h : fieldsDigits out) : fieldsDigits (stepCandidate out t) :=
  ⟨fun s hs => tryField_digits out.page t PAGE_PATTERNS h.1 s hs,
   fun s hs => tryField_digits out.line t LINE_PATTERNS h.2.1 s hs,
   fun s hs => tryField_digits out.col t COL_PATTERNS h.2.2 s hs⟩

theorem fieldsDigits_stage1 :
    ∀ (l : List (Nat × String)) (out : ParsedStatus),
      fieldsDigits out → fieldsDigits (stage1 out l) := by
  intro l
  induction l with
  | nil => intro out h; exact h
  | cons x rest ih =>
    intro out h
    obtain ⟨p, t⟩ := x
    simp only [stage1]
    by_cases h1 : isComplete (stepCandidate out t) = true
    · simp only [h1, if_true]
      exact fieldsDigits_step out t h
    · simp only [h1, if_false]
      exact ih _ (fieldsDigits_step out t h)

theorem setdefault_digits (cur : Option String) (v : String)
    (hcur : ∀ w, cur = some w → pyIsDigit w = true) (hv : pyIsDigit v = true) :
    ∀ s, setdefault cur v = some s → pyIsDigit s = true := by
  intro s hs
  cases hcur' : cur with
  | some w =>
    rw [hcur'] at hs
    simp only [setdefault] at hs
    injection hs with hs
    exact hs ▸ hcur w hcur'
  | none =>
    rw [hcur'] at hs
    simp only [setdefault] at hs
    injection hs with hs
    exact hs ▸ hv

theorem fieldsDigits_stage3 (out : ParsedStatus) (big : String)
    (h : fieldsDigits out) : fieldsDigits (stage3 out big) := by
  have hruns := digitRuns_digits big
  simp only [stage3]
  cases hr : digitRuns big with
  | nil => exact h
  | cons a t1 =>
    cases t1 with
    | nil => exact h
    | cons b t2 =>
      cases t2 with
      | nil => exact h
      | cons c t3 =>
        have ha : pyIsDigit a = true := hruns a (by rw [hr]; simp)
        have hb : pyIsDigit b = true := hruns b (by rw [hr]; simp)
        have hc : pyIsDigit c = true := hruns c (by rw [hr]; simp)
        exact ⟨setdefault_digits _ _ h.1 ha, setdefault_digits _ _ h.2.1 hb,
          setdefault_digits _ _ h.2.2 hc⟩

theorem fieldsDigits_empty : fieldsDigits emptyStatus := by
  refine ⟨?_, ?_, ?_⟩ <;> intro s hs <;> simp [emptyStatus] at hs

theorem fieldsDigits_parse (texts : List (Nat × String)) :
    fieldsDigits (parse_from_any texts) := by
  unfold parse_from_any
  by_cases h : isComplete (stage1 emptyStatus texts) = true
  · simp only [h, if_true]
    exact fieldsDigits_stage1 texts emptyStatus fieldsDigits_empty
  · simp only [h, if_false]
    exact fieldsDigits_stage3 _ _
      (fieldsDigits_step _ _ (fieldsDigits_stage1 texts emptyStatus fieldsDigits_empty))

/-- C5, amended.  The matcher tries the patterns in listed order,
but the result comes from the first pattern whose match CONTAINS a
non-empty all-digit capture group (the reversed group scan); a
pattern that matches without one is skipped and later patterns are
still tried.  Every value it returns — and hence every populated
field of a `ParsedStatus`, positional fallback included — is a
nonempty decimal digit string. -/
theorem match_first_number_amended :
    (∀ text pats, match_first_number text pats = pats.findSome? (tryPattern text)) ∧
    (∀ text pats s, match_first_number text pats = some s → pyIsDigit s = true) ∧
    (∀ texts, fieldsDigits (parse_from_any texts)) := by
  refine ⟨?_, fun text pats s h => match_first_number_digits pats text s h,
    fieldsDigits_parse⟩
  intro text pats
  induction pats with
  | nil => rfl
  | cons p rest ih =>
    cases hs : reSearch p text with
    | none => simp [match_first_number, List.findSome?, tryPattern, hs, ih]
    | some caps =>
      cases hg : lastDigitGroup (patGroups p caps) with
      | none => simp [match_first_number, List.findSome?, tryPattern, hs, hg, ih]
      | some g => simp [match_first_number, List.findSome?, tryPattern, hs, hg]

theorem match_first_number_amended_witness :
    match_first_number "Line: 42" LINE_PATTERNS =
      LINE_PATTERNS.findSome? (tryPattern "Line: 42") ∧
    match_first_number "Line: 42" LINE_PATTERNS = some "42" ∧
    pyIsDigit "42" = true := by
  have h := match_first_number_amended
  have h42 : match_first_number "Line: 42" LINE_PATTERNS = some "42" := by decide
  exact ⟨h.1 "Line: 42" LINE_PATTERNS, h42, h.2.1 "Line: 42" LINE_PATTERNS "42" h42⟩

/-- C5 fails as stated: the first matching pattern of this list has
two capture groups but no all-digit one, so under the spec's reading
the matcher would answer `none`, yet the code falls through to the
second pattern and returns "7". -/
theorem match_first_number_vs_spec_cex :
    match_first_number "ab7" [cexPatA, cexPatB] = some "7" ∧
    specMatchFirstNumber "ab7" [cexPatA, cexPatB] = none ∧
    (reSearch cexPatA "ab7").isSome = true ∧
    maxGroup cexPatA = 2 := by
  exact ⟨by decide, by decide, by decide, by decide⟩

/-! ## The dispatcher operations (claims C6, C7, C8, C10) -/

theorem stripStr_of_empty (t : String) (h : t.data = []) : (stripStr t).data = [] := by
  simp [stripStr, stripList, h]

theorem getApiLoop_succ (attempts : Nat → Option String) (i k : Nat) :
    getApiLoop attempts i (k + 1) =
      match (attempts i).bind (fun t =>
        if (stripStr t).data.isEmpty then none else some (normalizeWS t)) with
      | some r => some r
      | none => getApiLoop attempts (i + 1) k := by
  cases h0 : attempts i with
  | none => simp [getApiLoop, h0]
  | some t =>
    by_cases he2 : (stripStr t).data.isEmpty = true
    · have hnil : (stripStr t).data = [] := List.isEmpty_iff.mp he2
      have hcond : (!t.data.isEmpty && !(stripStr t).data.isEmpty) = false := by
        simp [he2]
      simp [getApiLoop, h0, hnil, hcond]
    · have hnil : ¬(stripStr t).data = [] := fun hh => he2 (by simp [hh])
      have he2f : (stripStr t).data.isEmpty = false := by
        revert he2; cases (stripStr t).data.isEmpty <;> simp
      have he1 : t.data.isEmpty = false := by
        by_contra hcon
        have hd : t.data.isEmpty = true := by
          revert hcon; cases t.data.isEmpty <;> simp
        exact hnil (stripStr_of_empty t (List.isEmpty_iff.mp hd))
      simp [getApiLoop, h0, hnil, he2f, he1]

/-- C8: the direct-status accessor queries at most 3 attempts, stops
at the first attempt whose text is non-blank and returns it
whitespace-normalized, and yields `none` — absence, not an error —
when every attempt raises or returns blank text. -/
theorem direct_status_retry_spec (attempts : Nat → Option String) :
    get_status_text_api attempts = specDirectStatusText attempts := by
  have hr : List.range 3 = [0, 1, 2] := rfl
  simp only [get_status_text_api, specDirectStatusText, hr]
  rw [getApiLoop_succ, getApiLoop_succ, getApiLoop_succ]
  simp only [getApiLoop, List.findSome?]
  have e1 : (0 : Nat) + 1 = 1 := rfl
  have e2 : (1 : Nat) + 1 = 2 := rfl
  rw [e1, e2]
  cases (attempts 0).bind
      (fun t => if (stripStr t).data.isEmpty = true then none else some (normalizeWS t)) with
  | some r => rfl
  | none =>
    cases (attempts 1).bind
        (fun t => if (stripStr t).data.isEmpty = true then none else some (normalizeWS t)) with
    | some r => rfl
    | none =>
      cases (attempts 2).bind
          (fun t => if (stripStr t).data.isEmpty = true then none else some (normalizeWS t)) with
      | some r => rfl
      | none => rfl

theorem statusParts_ne_nil (p : ParsedStatus) (h : p ≠ emptyStatus) :
    statusParts p ≠ [] := by
  obtain ⟨pp, pl, pc⟩ := p
  cases pp <;> cases pl <;> cases pc <;> simp_all [statusParts, emptyStatus]

theorem statusParts_eq_spec (p : ParsedStatus) :
    statusParts p =
      (p.page.map (fun v => "Page " ++ v)).toList ++
      (p.line.map (fun v => "Line " ++ v)).toList ++
      (p.col.map (fun v => "Column " ++ v)).toList := by
  obtain ⟨pp, pl, pc⟩ := p
  cases pp <;> cases pl <;> cases pc <;> simp [statusParts]

theorem status_compose_cases (p : ParsedStatus) :
    (if p ≠ emptyStatus then
       (if statusParts p ≠ [] then
          Spoken.message (String.intercalate ", " (statusParts p))
        else Spoken.message "Status bar not available.")
     else Spoken.message "Status bar not available.") =
    Spoken.message (specStatusMessage p) := by
  obtain ⟨pp, pl, pc⟩ := p
  cases pp <;> cases pl <;> cases pc <;>
    simp [statusParts, specStatusMessage, emptyStatus]

/-- C6: with the built-in delegate failing and the direct accessor
yielding nothing, the status report speaks exactly the resolved
fields, in the fixed order Page, Line, Column, joined by ", ", and
the fixed "Status bar not available." message when no field at all
resolved. -/
theorem status_report_compose_spec (attempts : Nat → Option String)
    (env : UiEnv) (fg : Option Nat)
    (h : get_status_text_api attempts = none) :
    script_reportDuxburyStatus false attempts env fg =
      .message (specStatusMessage (parse_from_any (collect_candidate_texts env fg))) := by
  simp only [script_reportDuxburyStatus, Bool.false_eq_true, if_false, h]
  exact status_compose_cases (parse_from_any (collect_candidate_texts env fg))

theorem status_report_compose_spec_witness :
    get_status_text_api noAtt = none ∧
    script_reportDuxburyStatus false noAtt emptyEnv none =
      .message "Status bar not available." := by
  have h : get_status_text_api noAtt = none := rfl
  refine ⟨h, ?_⟩
  rw [status_report_compose_spec noAtt emptyEnv none h]
  decide

theorem lineFromScan_eq (env : UiEnv) (fg : Option Nat) :
    lineFromScan env fg =
      specLineScanFallback (parse_from_any (collect_candidate_texts env fg)) := rfl

/-- C7: the line-only report uses, in order: the line pattern set on
the direct text; the 2nd digit run if and only if the direct text
has exactly 3 digit runs; and only otherwise the collector+parser
pipeline's line field, with the fixed "Line number not available."
message when that is also absent.  When the direct text already
yields a line the result does not depend on the UI tree at all. -/
theorem line_report_spec :
    (∀ (attempts : Nat → Option String) (env : UiEnv) (fg : Option Nat),
      script_reportDuxburyLine attempts env fg =
        specLineReport (get_status_text_api attempts)
          (parse_from_any (collect_candidate_texts env fg))) ∧
    (∀ (attempts : Nat → Option String) (env env2 : UiEnv) (fg fg2 : Option Nat)
        (text : String),
      get_status_text_api attempts = some text →
      (match_first_number text LINE_PATTERNS ≠ none ∨ (digitRuns text).length = 3) →
      script_reportDuxburyLine attempts env fg =
        script_reportDuxburyLine attempts env2 fg2) := by
  have main : ∀ (attempts : Nat → Option String) (env : UiEnv) (fg : Option Nat),
      script_reportDuxburyLine attempts env fg =
        specLineReport (get_status_text_api attempts)
          (parse_from_any (collect_candidate_texts env fg)) := by
    intro attempts env fg
    simp only [script_reportDuxburyLine, specLineReport]
    cases hd : get_status_text_api attempts with
    | none => exact lineFromScan_eq env fg
    | some text =>
      cases hm : match_first_number text LINE_PATTERNS with
      | some v =>
        have hv := match_first_number_digits _ _ _ hm
        have hne : v.data.isEmpty = false := by
          simp only [pyIsDigit, Bool.and_eq_true, Bool.not_eq_true'] at hv
          exact hv.1
        simp [truthy, hm, hne]
      | none =>
        cases h1 : digitRuns text with
        | nil => simp [truthy, hm, h1, lineFromScan_eq env fg]
        | cons a t1 =>
          cases t1 with
          | nil => simp [truthy, hm, h1, lineFromScan_eq env fg]
          | cons b t2 =>
            cases t2 with
            | nil => simp [truthy, hm, h1, lineFromScan_eq env fg]
            | cons c t3 =>
              cases t3 with
              | nil =>
                have hb : pyIsDigit b = true :=
                  digitRuns_digits text b (by rw [h1]; simp)
                have hneb : b.data.isEmpty = false := by
                  simp only [pyIsDigit, Bool.and_eq_true, Bool.not_eq_true'] at hb
                  exact hb.1
                simp [truthy, hm, h1, hneb]
              | cons d t4 => simp [truthy, hm, h1, lineFromScan_eq env fg]
  refine ⟨main, ?_⟩
  intro attempts env env2 fg fg2 text hd hcases
  rw [main attempts env fg, main attempts env2 fg2, hd]
  simp only [specLineReport]
  cases hmm : match_first_number text LINE_PATTERNS with
  | some v => simp [hmm]
  | none =>
    rcases hcases with hm | hl
    · exact absurd hmm hm
    · obtain ⟨a, b, c, habc⟩ := List.length_eq_three.mp hl
      simp [hmm, habc]

theorem line_report_spec_witness :
    get_status_text_api attD = some "Page: 2, Line: 100, Column: 1" ∧
    script_reportDuxburyLine attD emptyEnv none = .message "Line 100" ∧
    script_reportDuxburyLine attD envW1 (some 0) =
      script_reportDuxburyLine attD emptyEnv none := by
  have hd : get_status_text_api attD = some "Page: 2, Line: 100, Column: 1" := by
    decide
  refine ⟨hd, ?_, ?_⟩
  · rw [line_report_spec.1 attD emptyEnv none, hd]
    decide
  · exact line_report_spec.2 attD envW1 emptyEnv (some 0) none
      "Page: 2, Line: 100, Column: 1" hd (Or.inl (by decide))

theorem collectFromNode_congr (envA envB : UiEnv) (n : Nat)
    (hrole : envA.role n = envB.role n) (hname : envA.name n = envB.name n)
    (hvalue : envA.value n = envB.value n)
    (hwt : envA.windowText n = envB.windowText n)
    (hdesc : envA.description n = envB.description n)
    (hwc : envA.windowClassName n = envB.windowClassName n) :
    ∀ acc, collectFromNode envA acc n = collectFromNode envB acc n := by
  intro acc
  simp only [collectFromNode, nodeAttrs, hrole, hname, hvalue, hwt, hdesc, hwc]

theorem foldl_collect_congr (envA envB : UiEnv) (fg : Nat)
    (hattrs : ∀ n, n ≠ fg → envA.role n = envB.role n ∧ envA.name n = envB.name n ∧
      envA.value n = envB.value n ∧ envA.windowText n = envB.windowText n ∧
      envA.description n = envB.description n ∧
      envA.windowClassName n = envB.windowClassName n) :
    ∀ (visited : List Nat), (∀ n ∈ visited, n ≠ fg) →
      ∀ acc, visited.foldl (collectFromNode envA) acc =
        visited.foldl (collectFromNode envB) acc := by
  intro visited
  induction visited with
  | nil => intro _ acc; rfl
  | cons n rest ih =>
    intro hmem acc
    have hn := hattrs n (hmem n (List.mem_cons_self n rest))
    simp only [List.foldl_cons]
    rw [collectFromNode_congr envA envB n hn.1 hn.2.1 hn.2.2.1 hn.2.2.2.1
      hn.2.2.2.2.1 hn.2.2.2.2.2 acc]
    exact ih (fun m hm => hmem m (List.mem_cons_of_mem n hm)) _

/-- C10: the collector reads only the nodes the child traversal
yields.  A foreground window with no children produces the empty
candidate list whatever its own attributes; more generally, as long
as the root is not itself yielded, changing every one of the root's
own attributes changes nothing in the result. -/
theorem collector_only_descendants :
    (∀ (env : UiEnv) (fg : Nat), env.children fg = [] →
      collect_candidate_texts env (some fg) = []) ∧
    (∀ (envA envB : UiEnv) (fg : Nat),
      envA.children = envB.children →
      (∀ n, n ≠ fg → envA.role n = envB.role n ∧ envA.name n = envB.name n ∧
        envA.value n = envB.value n ∧ envA.windowText n = envB.windowText n ∧
        envA.description n = envB.description n ∧
        envA.windowClassName n = envB.windowClassName n) →
      fg ∉ (iter_children envA.children 6 800 fg).1 →
      collect_candidate_texts envA (some fg) = collect_candidate_texts envB (some fg)) := by
  constructor
  · intro env fg h
    simp [collect_candidate_texts, iter_children, walkFrame, h, walkSibs,
      sortAndDedup, keepFirstByText, List.insertionSort]
  · intro envA envB fg hch hattrs hnot
    simp only [collect_candidate_texts]
    rw [← hch]
    have hmem : ∀ n ∈ (iter_children envA.children 6 800 fg).1, n ≠ fg :=
      fun n hn heq => hnot (heq ▸ hn)
    rw [foldl_collect_congr envA envB fg hattrs _ hmem]

theorem collector_only_descendants_witness :
    envW1.children = envW2.children ∧
    (0 : Nat) ∉ (iter_children envW1.children 6 800 0).1 ∧
    collect_candidate_texts envW1 (some 0) = collect_candidate_texts envW2 (some 0) ∧
    collect_candidate_texts emptyEnv (some 5) = [] := by
  have hch : envW1.children = envW2.children := rfl
  have hattrs : ∀ n, n ≠ 0 → envW1.role n = envW2.role n ∧
      envW1.name n = envW2.name n ∧ envW1.value n = envW2.value n ∧
      envW1.windowText n = envW2.windowText n ∧
      envW1.description n = envW2.description n ∧
      envW1.windowClassName n = envW2.windowClassName n := by
    intro n hn
    refine ⟨rfl, ?_, rfl, rfl, rfl, rfl⟩
    simp [envW1, envW2, hn]
  have hnot : (0 : Nat) ∉ (iter_children envW1.children 6 800 0).1 := by decide
  exact ⟨hch, hnot,
    collector_only_descendants.2 envW1 envW2 0 hch hattrs hnot,
    collector_only_descendants.1 emptyEnv 5 rfl⟩

end Dbtw
